import Mathlib

/-!
Verification of the AI-Strategic-Orchestrator server (src/server.py).

The repository is a single Flask server driving a simulated multi-expert
discussion.  This file gives a shallow embedding of its business logic
(`DiscussionService` in src/server.py) and proves the frozen claims about it.

Modelling conventions:
* The SQLite store (`discussions.db`) is an explicit `Db` state: three row
  lists plus the next autoincrement message id.  Messages are stored in
  ascending-id (= insertion) order, which is what `ORDER BY id ASC` returns.
* The generative text service (Gemini) is an external collaborator; its
  responses are oracle inputs.  For team selection the round trip of
  `generate_sync` + permissive parsing is summarised by
  `Option (List String)`: `none` is the `except` path (service failure or
  unparsable output), `some ids` is a parsed id list (the Python membership test on ids;
  a dict or string result behaves as membership in its key or
  substring list, so it is the same shape).
* Inside the turn loop the per-turn oracle `TurnOracle` supplies the parsed
  coordinator decision, the streamed tokens, and an optional cut point
  `cut = some k`, which models an exception thrown after the first
  `k` elementary actions of the turn (the source catches any per-turn exception and
  continues, line 246-248); `cut = none` means the turn runs to completion.
* Timestamps (`datetime.now()`) are environment noise never examined by the
  code; they are omitted from the embedding.
-/

/-- An agent definition from `agents.json` (`AGENT_POOL` entries). -/
structure Agent where
  id : String
  role : String
  description : String
  style : String
  frameworks : List String
deriving DecidableEq, Repr

/-- A row of the `discussions` table. -/
structure Discussion where
  id : String
  task : String
  goal : String
  status : String
  created_at : String
deriving DecidableEq, Repr

/-- A row of the `roles` table. -/
structure RoleRow where
  discussion_id : String
  role_name : String
  description : String
  agent_id : String
deriving DecidableEq, Repr

/-- A row of the `messages` table (timestamp omitted, never examined). -/
structure Msg where
  id : Nat
  discussion_id : String
  sender : String
  content : String
deriving DecidableEq, Repr

/-- The SQLite store: row lists plus the next `INTEGER PRIMARY KEY` value
for `messages`.  `messages` is kept in ascending id order. -/
structure Db where
  discussions : List Discussion
  messages : List Msg
  roles : List RoleRow
  nextMsgId : Nat
deriving DecidableEq, Repr

/-- Embedding of the INSERT of `_save_msg` (src/server.py:297-299):
append a row with the next autoincrement id. -/
def saveMsg (db : Db) (did sender content : String) : Db :=
  { db with
    messages := db.messages ++ [⟨db.nextMsgId, did, sender, content⟩],
    nextMsgId := db.nextMsgId + 1 }

/-- The fixed default agent id list of `_select_best_team`
(src/server.py:156 and 165). -/
def defaultIds : List String :=
  ["strategy_consultant", "financial_controller", "tech_lead",
   "marketing_strategist", "risk_manager"]

/-- The fill loop of `_select_best_team` (src/server.py:158-161): walk
the default id list; while fewer than 5 agents are selected, append the
first pool agent carrying each default id not already selected.  As in
the source, `existing` is the set of already-selected ids computed once,
before the loop. -/
def fillLoop (pool : List Agent) (existing : List String) :
    List Agent → List String → List Agent
  | selected, [] => selected
  | selected, d :: rest =>
    if d ∉ existing ∧ selected.length < 5 then
      match pool.find? (fun a => decide (a.id = d)) with
      | some fb => fillLoop pool existing (selected ++ [fb]) rest
      | none => fillLoop pool existing selected rest
    else fillLoop pool existing selected rest

/-- Embedding of `_select_best_team` (src/server.py:138-166), given the outcome of the
generative round trip: `none` is the `except` branch (service failure or
unparsable output), `some ids` the parsed id list of the `try` branch. -/
def selectBestTeam (pool : List Agent) (outcome : Option (List String)) :
    List Agent :=
  match outcome with
  | none => pool.filter (fun a => decide (a.id ∈ defaultIds))
  | some ids =>
    let selected := pool.filter (fun a => decide (a.id ∈ ids))
    let selected :=
      if selected.length < 5 then
        fillLoop pool (selected.map Agent.id) selected defaultIds
      else selected
    selected.take 5

/-- Dictionary insertion with Python `dict` overwrite semantics
(used for `roles_desc` in `create_discussion`). -/
def dictInsert (m : List (String × String)) (k v : String) :
    List (String × String) :=
  if m.any (fun p => p.1 == k) then
    m.map (fun p => if p.1 == k then (k, v) else p)
  else m ++ [(k, v)]

/-- The opening coordinator message of `create_discussion`
(src/server.py:132-133). -/
def pmOpeningMsg (goal : String) (selected : List Agent) : String :=
  "プロジェクトを開始します。\n\n【戦略ゴール定義】\n" ++ goal ++
  "\n\n【アサインされた専門家チーム（5名）】\n" ++
  String.intercalate "\n" (selected.map (fun a => "・" ++ a.role))

/-- Embedding of `create_discussion` (src/server.py:112-136).  `teamOutcome` is the
team-selection service outcome, `goal` the `_define_strategic_goal`
service response (a plain pass-through of `generate_sync`), `did` the
fresh uuid and `createdAt` the clock reading.  Returns the updated store
together with the `(discussion_id, roles_desc, goal, pm_msg)` tuple. -/
def create_discussion (pool : List Agent) (db : Db)
    (teamOutcome : Option (List String)) (did task goal createdAt : String) :
    Db × String × List (String × String) × String × String :=
  let selected := selectBestTeam pool teamOutcome
  let db := { db with discussions :=
    db.discussions ++ [Discussion.mk did task goal "active" createdAt] }
  let newRoles :=
    selected.map (fun a => RoleRow.mk did a.role a.description a.id)
  let db := { db with roles := db.roles ++ newRoles }
  let rolesDesc :=
    selected.foldl (fun m a => dictInsert m a.role a.description) []
  let pmMsg := pmOpeningMsg goal selected
  let db := saveMsg db did "PM" pmMsg
  (db, did, rolesDesc, goal, pmMsg)

/-- Phase derivation in the turn loop (src/server.py:203-205). -/
def phase (turn : Nat) : String :=
  if turn ≤ 3 then "DIVERGE (Ideation)"
  else if turn ≤ 7 then "DEEPEN (Critique & Feasibility)"
  else "CONVERGE (Planning)"

-- ==========================================================================
-- Helper lemmas about the team-selection algorithm
-- ==========================================================================

theorem fillLoop_eq_append (pool : List Agent) (existing : List String) :
    ∀ (ds : List String) (sel : List Agent),
      ∃ extra, fillLoop pool existing sel ds = sel ++ extra := by
  intro ds
  induction ds with
  | nil => intro sel; exact ⟨[], by simp [fillLoop]⟩
  | cons d rest ih =>
    intro sel
    unfold fillLoop
    by_cases h : d ∉ existing ∧ sel.length < 5
    · rw [if_pos h]
      cases hf : pool.find? (fun a => decide (a.id = d)) with
      | none => exact ih sel
      | some fb =>
        obtain ⟨extra, hx⟩ := ih (sel ++ [fb])
        refine ⟨fb :: extra, ?_⟩
        show fillLoop pool existing (sel ++ [fb]) rest = sel ++ fb :: extra
        rw [hx]; simp
    · rw [if_neg h]; exact ih sel

theorem fillLoop_length (pool : List Agent) (existing : List String)
    (ds : List String)
    (hfind : ∀ d ∈ ds, (pool.find? (fun a => decide (a.id = d))).isSome) :
    ∀ sel : List Agent,
      (fillLoop pool existing sel ds).length =
        max sel.length
          (min 5 (sel.length +
            (ds.filter (fun d => decide (d ∉ existing))).length)) := by
  induction ds with
  | nil => intro sel; simp [fillLoop]
  | cons d rest ih =>
    intro sel
    have hfind' : ∀ d' ∈ rest, (pool.find? (fun a => decide (a.id = d'))).isSome :=
      fun d' h => hfind d' (List.mem_cons_of_mem _ h)
    unfold fillLoop
    by_cases hmem : d ∉ existing
    · by_cases hlen : sel.length < 5
      · rw [if_pos ⟨hmem, hlen⟩]
        have hs : (pool.find? (fun a => decide (a.id = d))).isSome :=
          hfind d (List.mem_cons_self _ _)
        cases hf : pool.find? (fun a => decide (a.id = d)) with
        | none => rw [hf] at hs; simp at hs
        | some fb =>
          show (fillLoop pool existing (sel ++ [fb]) rest).length = _
          rw [ih hfind' (sel ++ [fb])]
          have hq : ((d :: rest).filter (fun d => decide (d ∉ existing))).length
              = (rest.filter (fun d => decide (d ∉ existing))).length + 1 := by
            simp [List.filter_cons, hmem]
          rw [hq]
          simp only [List.length_append, List.length_singleton]
          omega
      · rw [if_neg (by intro h; exact hlen h.2)]
        rw [ih hfind' sel]
        have hq : ((d :: rest).filter (fun d => decide (d ∉ existing))).length
            = (rest.filter (fun d => decide (d ∉ existing))).length + 1 := by
          simp [List.filter_cons, hmem]
        rw [hq]
        omega
    · rw [if_neg (by intro h; exact hmem h.1)]
      rw [ih hfind' sel]
      have hq : ((d :: rest).filter (fun d => decide (d ∉ existing))).length
          = (rest.filter (fun d => decide (d ∉ existing))).length := by
        simp [List.filter_cons, hmem]
      rw [hq]

/-- Indicator sums over a list without the key. -/
theorem sum_indicator_not_mem (x : String) :
    ∀ ds : List String, x ∉ ds →
      (ds.map (fun d => if x = d then 1 else 0)).sum = 0 := by
  intro ds
  induction ds with
  | nil => intro _; simp
  | cons d rest ih =>
    intro h
    have hx : ¬ x = d := fun he => h (he ▸ List.mem_cons_self _ _)
    have hr : x ∉ rest := fun hm => h (List.mem_cons_of_mem _ hm)
    simp [hx, ih hr]

/-- Indicator sums over a duplicate-free list. -/
theorem sum_indicator_nodup (x : String) :
    ∀ ds : List String, ds.Nodup →
      (ds.map (fun d => if x = d then 1 else 0)).sum =
        if x ∈ ds then 1 else 0 := by
  intro ds
  induction ds with
  | nil => intro _; simp
  | cons d rest ih =>
    intro hnd
    rcases List.nodup_cons.mp hnd with ⟨hd, hrest⟩
    by_cases hx : x = d
    · subst hx
      simp [sum_indicator_not_mem x rest hd]
    · by_cases hm : x ∈ rest
      · simp [hx, ih hrest, hm]
      · have : x ∉ d :: rest := by
          intro hc
          rcases List.mem_cons.mp hc with h | h
          · exact hx h
          · exact hm h
        simp [hx, ih hrest, hm, this]

/-- Pointwise sums of mapped lists split. -/
theorem sum_map_add (f g : String → Nat) :
    ∀ ds : List String,
      (ds.map (fun d => f d + g d)).sum = (ds.map f).sum + (ds.map g).sum := by
  intro ds
  induction ds with
  | nil => simp
  | cons d rest ih => simp [ih]; omega

/-- A filter and its complement partition the length of a list. -/
theorem length_filter_split {α : Type} (p : α → Prop) [DecidablePred p] :
    ∀ l : List α,
      (l.filter (fun a => decide (p a))).length +
        (l.filter (fun a => !(decide (p a)))).length = l.length := by
  intro l
  induction l with
  | nil => simp
  | cons a rest ih =>
    by_cases h : p a <;>
      simp only [List.filter_cons, h, Bool.not_true, Bool.not_false,
        if_true, if_false, decide_eq_true_eq, List.length_cons] <;>
      simp <;> omega

/-- Counting agents whose id lies in a duplicate-free id list splits into a
sum of per-id counts. -/
theorem filter_mem_length (ds : List String) (hnd : ds.Nodup) :
    ∀ pool : List Agent,
      (pool.filter (fun a => decide (a.id ∈ ds))).length =
        (ds.map (fun d =>
          (pool.filter (fun a => decide (a.id = d))).length)).sum := by
  intro pool
  induction pool with
  | nil => simp
  | cons a rest ih =>
    by_cases hm : a.id ∈ ds
    · have hsum := sum_indicator_nodup a.id ds hnd
      rw [if_pos hm] at hsum
      have : (ds.map (fun d =>
          ((a :: rest).filter (fun x => decide (x.id = d))).length)).sum =
          (ds.map (fun d => (if a.id = d then 1 else 0) +
            (rest.filter (fun x => decide (x.id = d))).length)).sum := by
        congr 1
        apply List.map_congr_left
        intro d _
        by_cases he : a.id = d
        · simp [List.filter_cons, he]
          omega
        · simp [List.filter_cons, he]
      rw [this, sum_map_add, hsum]
      simp [List.filter_cons, hm, ih]
      omega
    · have hsum := sum_indicator_nodup a.id ds hnd
      rw [if_neg hm] at hsum
      have : (ds.map (fun d =>
          ((a :: rest).filter (fun x => decide (x.id = d))).length)).sum =
          (ds.map (fun d => (if a.id = d then 1 else 0) +
            (rest.filter (fun x => decide (x.id = d))).length)).sum := by
        congr 1
        apply List.map_congr_left
        intro d _
        by_cases he : a.id = d
        · simp [List.filter_cons, he]
          omega
        · simp [List.filter_cons, he]
      rw [this, sum_map_add, hsum]
      simp [List.filter_cons, hm, ih]

/-- A list whose mapped values are all 1 sums to its length. -/
theorem sum_map_all_one {α : Type} (f : α → Nat) :
    ∀ l : List α, (∀ x ∈ l, f x = 1) → (l.map f).sum = l.length := by
  intro l
  induction l with
  | nil => intro _; simp
  | cons a rest ih =>
    intro h
    have h1 := h a (List.mem_cons_self _ _)
    have h2 := ih (fun x hx => h x (List.mem_cons_of_mem _ hx))
    simp only [List.map_cons, List.sum_cons, List.length_cons, h1, h2]
    omega

/-- If each default id occurs exactly once in the pool, the error-path
fallback list of `_select_best_team` has exactly 5 entries. -/
theorem fallback_length (pool : List Agent)
    (h : ∀ d ∈ defaultIds,
      (pool.filter (fun a => decide (a.id = d))).length = 1) :
    (pool.filter (fun a => decide (a.id ∈ defaultIds))).length = 5 := by
  have hnd : defaultIds.Nodup := by decide
  rw [filter_mem_length defaultIds hnd pool]
  rw [sum_map_all_one _ defaultIds h]
  decide

/-- Under the C1 hypotheses, `_select_best_team` returns exactly 5 agents
for every service outcome. -/
theorem selectBestTeam_length (pool : List Agent)
    (h : ∀ d ∈ defaultIds,
      (pool.filter (fun a => decide (a.id = d))).length = 1) :
    ∀ outcome, (selectBestTeam pool outcome).length = 5 := by
  have hfind : ∀ d ∈ defaultIds,
      (pool.find? (fun a => decide (a.id = d))).isSome := by
    intro d hd
    have h1 := h d hd
    rcases hx : pool.filter (fun a => decide (a.id = d)) with _ | ⟨b, tl⟩
    · rw [hx] at h1; simp at h1
    · have hb : b ∈ pool.filter (fun a => decide (a.id = d)) := by
        rw [hx]; exact List.mem_cons_self _ _
      rcases List.mem_filter.mp hb with ⟨hbp, hbd⟩
      exact List.find?_isSome.mpr ⟨b, hbp, hbd⟩
  intro outcome
  cases outcome with
  | none => exact fallback_length pool h
  | some ids =>
    simp only [selectBestTeam]
    set sel0 := pool.filter (fun a => decide (a.id ∈ ids)) with hsel0
    by_cases hlt : sel0.length < 5
    · rw [if_pos hlt]
      rw [List.length_take]
      rw [fillLoop_length pool (sel0.map Agent.id) defaultIds hfind sel0]
      -- the number of default ids not already selected is at least 5 - |sel0|
      have hq : 5 ≤ sel0.length +
          (defaultIds.filter
            (fun d => decide (d ∉ sel0.map Agent.id))).length := by
        have h0 := length_filter_split
          (fun d => d ∈ sel0.map Agent.id) defaultIds
        have hconv :
            defaultIds.filter
              (fun d => !(decide (d ∈ sel0.map Agent.id))) =
            defaultIds.filter
              (fun d => decide (d ∉ sel0.map Agent.id)) := by
          apply List.filter_congr
          intro x _
          rw [← decide_not]
        rw [hconv] at h0
        have hsub : (defaultIds.filter
            (fun d => decide (d ∈ sel0.map Agent.id))).length ≤
            (sel0.map Agent.id).length := by
          apply List.Subperm.length_le
          apply List.subperm_of_subset
          · exact List.Nodup.filter _ (by decide)
          · intro x hx
            rcases List.mem_filter.mp hx with ⟨_, hx2⟩
            exact of_decide_eq_true hx2
        rw [List.length_map] at hsub
        have h5 : defaultIds.length = 5 := by decide
        omega
      omega
    · rw [if_neg hlt]
      rw [List.length_take]
      omega

-- ==========================================================================
-- C1: creation always persists exactly 5 role rows
-- ==========================================================================

/-- Claim C1: For every task and every generative-service response to team
selection (well-formed, malformed, or a service failure - all summarised
by `teamOutcome`), if the Agent Catalog contains agents with the 5 fixed
default ids, each id unique in the catalog, then `create_discussion`
persists exactly 5 `RoleRow`s for the new discussion. -/
theorem create_discussion_five_roles (pool : List Agent) (db : Db)
    (teamOutcome : Option (List String)) (did task goal createdAt : String)
    (hpool : ∀ d ∈ defaultIds,
      (pool.filter (fun a => decide (a.id = d))).length = 1)
    (hfresh : ∀ r ∈ db.roles, r.discussion_id ≠ did) :
    (((create_discussion pool db teamOutcome did task goal
        createdAt).1).roles.filter
      (fun r => decide (r.discussion_id = did))).length = 5 := by
  have hsel := selectBestTeam_length pool hpool teamOutcome
  simp only [create_discussion, saveMsg]
  rw [List.filter_append]
  have h1 : db.roles.filter (fun r => decide (r.discussion_id = did)) = [] := by
    rw [List.filter_eq_nil]
    intro r hr
    simp [hfresh r hr]
  have h2 : ((selectBestTeam pool teamOutcome).map
        (fun a => RoleRow.mk did a.role a.description a.id)).filter
      (fun r => decide (r.discussion_id = did)) =
      (selectBestTeam pool teamOutcome).map
        (fun a => RoleRow.mk did a.role a.description a.id) := by
    rw [List.filter_map]
    have : ((fun r : RoleRow => decide (r.discussion_id = did)) ∘
        (fun a : Agent => RoleRow.mk did a.role a.description a.id)) =
        fun _ => true := by
      funext a
      simp
    rw [this, List.filter_true]
  rw [h1, h2]
  simp [hsel]

/-- Concrete witness catalog: one agent per default id. -/
def wPool : List Agent :=
  defaultIds.map (fun d => Agent.mk d d "desc" "style" [])

/-- Witness for C1 at a concrete catalog, store and outcome. -/
theorem create_discussion_five_roles_witness :
    (((create_discussion wPool (Db.mk [] [] [] 1) (some ["tech_lead"])
        "D1" "task" "goal" "now").1).roles.filter
      (fun r => decide (r.discussion_id = "D1"))).length = 5 :=
  create_discussion_five_roles wPool (Db.mk [] [] [] 1) (some ["tech_lead"])
    "D1" "task" "goal" "now" (by decide) (by simp)

-- ==========================================================================
-- C10: team selection is catalog-ordered and depends only on the id set
-- ==========================================================================

/-- Claim C10: For every service response parsing to a list of ids, the agents
`_select_best_team` matches appear first in the output in Agent-Catalog
order (a subsequence of the catalog), and the output depends only on the
set of ids: any membership-equivalent id list (a permutation, or one with
duplicated ids) yields the same team in the same order. -/
theorem selectBestTeam_catalog_order (pool : List Agent)
    (ids ids' : List String) (h : ∀ s, s ∈ ids ↔ s ∈ ids') :
    selectBestTeam pool (some ids) = selectBestTeam pool (some ids') ∧
    ((pool.filter (fun a => decide (a.id ∈ ids))).take 5).Sublist pool ∧
    ∃ rest, selectBestTeam pool (some ids) =
      (pool.filter (fun a => decide (a.id ∈ ids))).take 5 ++ rest := by
  have hfeq : pool.filter (fun a => decide (a.id ∈ ids)) =
      pool.filter (fun a => decide (a.id ∈ ids')) := by
    apply List.filter_congr
    intro a _
    exact decide_eq_decide.mpr (h a.id)
  refine ⟨?_, ?_, ?_⟩
  · simp only [selectBestTeam]
    rw [hfeq]
  · exact (List.take_sublist _ _).trans (List.filter_sublist _)
  · simp only [selectBestTeam]
    set sel0 := pool.filter (fun a => decide (a.id ∈ ids)) with hsel0
    by_cases hlt : sel0.length < 5
    · rw [if_pos hlt]
      obtain ⟨extra, hx⟩ :=
        fillLoop_eq_append pool (sel0.map Agent.id) defaultIds sel0
      rw [hx, List.take_append_eq_append_take]
      refine ⟨extra.take (5 - sel0.length), ?_⟩
      rw [List.take_all_of_le (by omega)]
    · rw [if_neg hlt]
      exact ⟨[], by simp⟩

/-- Witness for C10: a permuted, duplicated id list yields the same team. -/
theorem selectBestTeam_catalog_order_witness :
    selectBestTeam wPool (some ["tech_lead", "risk_manager"]) =
      selectBestTeam wPool
        (some ["risk_manager", "tech_lead", "tech_lead"]) :=
  (selectBestTeam_catalog_order wPool ["tech_lead", "risk_manager"]
    ["risk_manager", "tech_lead", "tech_lead"]
    (by intro s; simp; tauto)).1

-- ==========================================================================
-- C6: phase trisection
-- ==========================================================================

/-- Claim C6: Phase derivation is a pure function of the turn number alone:
turns 1-3 map to DIVERGE, 4-7 to DEEPEN, 8-10 to CONVERGE. -/
theorem phase_trisection (turn : Nat) (h1 : 1 ≤ turn) (h2 : turn ≤ 10) :
    (turn ≤ 3 → phase turn = "DIVERGE (Ideation)") ∧
    (4 ≤ turn → turn ≤ 7 → phase turn = "DEEPEN (Critique & Feasibility)") ∧
    (8 ≤ turn → phase turn = "CONVERGE (Planning)") := by
  unfold phase
  refine ⟨?_, ?_, ?_⟩
  · intro h
    rw [if_pos h]
  · intro h h'
    rw [if_neg (by omega), if_pos (by omega)]
  · intro h
    rw [if_neg (by omega), if_neg (by omega)]

/-- Witness for C6 at turns 2, 5 and 9. -/
theorem phase_trisection_witness :
    phase 2 = "DIVERGE (Ideation)" ∧
    phase 5 = "DEEPEN (Critique & Feasibility)" ∧
    phase 9 = "CONVERGE (Planning)" :=
  ⟨(phase_trisection 2 (by decide) (by decide)).1 (by decide),
   (phase_trisection 5 (by decide) (by decide)).2.1 (by decide) (by decide),
   (phase_trisection 9 (by decide) (by decide)).2.2 (by decide)⟩

-- ==========================================================================
-- The turn loop of run_stream (src/server.py:176-253)
-- ==========================================================================

/-- Python slice taking the last n entries of a list. -/
def lastN {α : Type} (n : Nat) (l : List α) : List α :=
  l.drop (l.length - n)

/-- One history line (src/server.py:200):
sender in brackets, the first 200 characters of the content, a literal
ellipsis suffix. -/
def renderMsg (m : Msg) : String :=
  "[" ++ m.sender ++ "]: " ++ m.content.take 200 ++ "..."

/-- The bounded history window (src/server.py:200): the last 10 messages,
rendered and joined by newlines. -/
def historyText (msgs : List Msg) : String :=
  String.intercalate "\n" ((lastN 10 msgs).map renderMsg)

/-- Escaping of one character under `json.dumps(..., ensure_ascii=False)`
(the control characters beyond tab/newline/return do not occur in role
names). -/
def jsonEscapeChar (c : Char) : String :=
  if c = '\\' then "\\\\"
  else if c = '"' then "\\\""
  else if c = '\n' then "\\n"
  else if c = '\t' then "\\t"
  else if c = '\r' then "\\r"
  else String.singleton c

/-- A JSON string literal. -/
def jsonStr (s : String) : String :=
  "\"" ++ String.join (s.data.map jsonEscapeChar) ++ "\""

/-- Rendering of a list of strings as done by json.dumps with its default separator. -/
def jsonList (ss : List String) : String :=
  "[" ++ String.intercalate ", " (ss.map jsonStr) ++ "]"

/-- The candidate list offered to the coordinator prompt
(src/server.py:256): every candidate except the immediately preceding
speaker. -/
def offeredCandidates (candidates : List String) (lastSpeaker : String) :
    List String :=
  candidates.filter (fun c => decide (c ≠ lastSpeaker))

/-- The `_pm_brain` prompt (src/server.py:257-264). -/
def pmPromptTemplate (task ph history candidatesStr : String) : String :=
  "\nTask: " ++ task ++ "\nPhase: " ++ ph ++ "\nHistory: " ++ history ++
  "\nAvailable Experts: " ++ candidatesStr ++
  "\nDecide the NEXT speaker and provide a specific question in Japanese." ++
  "\nOutput JSON: \x7b \"next_speaker\": \"ExactRoleName\"," ++
  " \"instruction\": \"Japanese Text\" \x7d\n"

/-- The `_construct_agent_prompt` text (src/server.py:272-280). -/
def agentPromptTemplate (role style : String) (frameworks : List String)
    (instruction history task ph : String) : String :=
  "\nYou are " ++ role ++ ". Style: " ++ style ++ ". Frameworks: " ++
  String.intercalate ", " frameworks ++ ".\nTask: " ++ task ++
  "\nPhase: " ++ ph ++ "\nHistory: " ++ history ++
  "\nInstruction: \"" ++ instruction ++
  "\"\nRespond in Japanese. Be specific and professional.\n"

/-- The key list of the `roles_map` dict (src/server.py:182-185): role
names of the role rows of the discussion in first-insertion order. -/
def rolesKeys (rows : List RoleRow) : List String :=
  rows.foldl
    (fun ks r => if r.role_name ∈ ks then ks else ks ++ [r.role_name]) []

/-- Lookup in roles_map (src/server.py:183-185): the last row
with that role name wins (dict overwrite), and its `agent_id` is resolved
in the agent pool; `none` stands for the generic placeholder. -/
def rolesMapGet (pool : List Agent) (rows : List RoleRow) (name : String) :
    Option Agent :=
  match rows.reverse.find? (fun r => decide (r.role_name = name)) with
  | none => none
  | some r => pool.find? (fun a => decide (a.id = r.agent_id))

/-- Style lookup for the speaker prompt, defaulting to Expert. -/
def styleOf (pool : List Agent) (rows : List RoleRow) (name : String) :
    String :=
  match rolesMapGet pool rows name with
  | some a => a.style
  | none => "Expert"

/-- Frameworks lookup for the speaker prompt, defaulting to the empty list. -/
def frameworksOf (pool : List Agent) (rows : List RoleRow) (name : String) :
    List String :=
  match rolesMapGet pool rows name with
  | some a => a.frameworks
  | none => []

/-- A server-sent event of `run_stream`, modelled structurally (the wire
format of `_sse_event` wraps each in `event:`/`data:` lines). -/
inductive Event where
  | status (data : String)
  | message (sender content ty : String)
  | streamStart (sender : String)
  | streamChunk (token : String)
  | streamEnd
  | finished (report : String)
deriving DecidableEq, Repr

/-- Outcome of the `_pm_brain` round trip (src/server.py:265-270):
`parseFail` is the `except` branch; `parsed ns ins` a parsed JSON dict
whose two accessed keys may each be absent (`none`), in which case the
`KeyError` is raised in the caller.  A response parsing to a non-dict
raises on first access; that behaviour is covered by the fault cut. -/
inductive PmOutcome where
  | parseFail
  | parsed (next_speaker instruction : Option String)
deriving DecidableEq, Repr

/-- Per-turn external input: the coordinator outcome, the streamed tokens
of `generate_stream` (which yields an error fragment rather than raising),
and an optional fault: `cut = some k` means an exception interrupts the
turn after its first `k` elementary actions, which the `except` and
`continue` of the loop swallow (src/server.py:246-248). -/
structure TurnOracle where
  pm : PmOutcome
  tokens : List String
  cut : Option Nat
deriving DecidableEq, Repr

/-- Elementary actions of one turn: emit an SSE event, call the service
(recorded with its prompt; the response comes from the oracle), insert a
message row, update `last_speaker`. -/
inductive Act where
  | emit (e : Event)
  | callSync (prompt : String)
  | callStream (prompt : String)
  | save (sender content : String)
  | setLast (r : String)
deriving DecidableEq, Repr

/-- Result of `_pm_brain` as seen by the caller: `none` when `_pm_brain`
itself raises (parse failure with an empty candidate list makes
`candidates[0]` raise IndexError); otherwise the two dict accesses. -/
def pmBrainResult (candidates : List String) (o : PmOutcome) :
    Option (Option String × Option String) :=
  match o with
  | .parseFail =>
    match candidates with
    | [] => none
    | c :: _ => some (some c, some "意見をお願いします。")
  | .parsed ns ins => some (ns, ins)

/-- The `(phase) speaker-san, instruction` coordinator message text
(src/server.py:222). -/
def pmContentOf (ph nextRole ins : String) : String :=
  "(" ++ ph ++ ") " ++ nextRole ++ "さん、" ++ ins

/-- The actions of the speaker part of a turn (src/server.py:219-242):
update `last_speaker`, persist and emit the coordinator message, announce
the speaker, stream the response fragments and persist the accumulated
buffer. -/
def speakerActs (pool : List Agent) (rows : List RoleRow)
    (task history ph nextRole ins : String) (tokens : List String) :
    List Act :=
  Act.setLast nextRole ::
  Act.save "PM" (pmContentOf ph nextRole ins) ::
  Act.emit (Event.message "PM" (pmContentOf ph nextRole ins) "pm") ::
  Act.emit (Event.status (nextRole ++ " is thinking...")) ::
  Act.emit (Event.streamStart nextRole) ::
  Act.callStream (agentPromptTemplate nextRole
    (styleOf pool rows nextRole) (frameworksOf pool rows nextRole)
    ins history task ph) ::
  (tokens.map (fun t => Act.emit (Event.streamChunk t)) ++
   [Act.emit Event.streamEnd,
    Act.save nextRole (String.join tokens)])

/-- The action sequence of one turn body (src/server.py:195-244), before
fault cutting.  An early end of the list marks the point where the turn
raises (KeyError on a missing dict key, IndexError/ZeroDivisionError on an
empty candidate list). -/
def turnActions (pool : List Agent) (rows : List RoleRow) (task : String)
    (candidates : List String) (msgs : List Msg) (lastSpeaker : String)
    (turn : Nat) (o : TurnOracle) : List Act :=
  let history := historyText msgs
  let ph := phase turn
  Act.emit (Event.status ("Phase: " ++ ph ++ " - PM Coordinating...")) ::
  Act.callSync (pmPromptTemplate task ph history
    (jsonList (offeredCandidates candidates lastSpeaker))) ::
  match pmBrainResult candidates o.pm with
  | none => []
  | some (nsOpt, insOpt) =>
    match nsOpt with
    | none => []
    | some ns =>
      match insOpt with
      | none => []
      | some ins =>
        match (if ns ∈ candidates then some ns
               else candidates.get? (turn % candidates.length)) with
        | none => []
        | some nextRole =>
          speakerActs pool rows task history ph nextRole ins o.tokens

/-- In-memory state threaded through the loop: the store plus
`last_speaker`. -/
structure RunState where
  db : Db
  lastSpeaker : String
deriving DecidableEq, Repr

/-- Effect of one action on the loop state. -/
def execState (did : String) (s : RunState) (a : Act) : RunState :=
  match a with
  | .emit _ => s
  | .callSync _ => s
  | .callStream _ => s
  | .save sender content => { s with db := saveMsg s.db did sender content }
  | .setLast r => { s with lastSpeaker := r }

/-- Fold the state through a list of actions. -/
def applyActs (did : String) (s : RunState) (acts : List Act) : RunState :=
  acts.foldl (execState did) s

/-- The events among a list of actions, in order. -/
def actEvents (acts : List Act) : List Event :=
  acts.filterMap (fun a => match a with | .emit e => some e | _ => none)

/-- Embedding of the messages query (discussion rows ordered by id ascending;
(the store keeps messages in ascending id order). -/
def msgsOf (db : Db) (did : String) : List Msg :=
  db.messages.filter (fun m => decide (m.discussion_id = did))

/-- Apply a fault cut: `some k` truncates the turn at its k-th action. -/
def cutActs (acts : List Act) : Option Nat → List Act
  | none => acts
  | some k => acts.take k

/-- One iteration of the turn loop. -/
def runTurn (pool : List Agent) (rows : List RoleRow) (did task : String)
    (candidates : List String) (o : TurnOracle) (turn : Nat) (s : RunState) :
    RunState × List Event :=
  let acts := cutActs (turnActions pool rows task candidates
    (msgsOf s.db did) s.lastSpeaker turn o) o.cut
  (applyActs did s acts, actEvents acts)

/-- The turn loop from turn `t`, `n` turns remaining. -/
def runTurns (pool : List Agent) (rows : List RoleRow) (did task : String)
    (candidates : List String) (os : Nat → TurnOracle) :
    Nat → Nat → RunState → RunState × List Event
  | _, 0, s => (s, [])
  | t, n + 1, s =>
    let p := runTurn pool rows did task candidates (os t) t s
    let q := runTurns pool rows did task candidates os (t + 1) n p.1
    (q.1, p.2 ++ q.2)

/-- Embedding of `run_stream` (src/server.py:176-253): load the discussion (silently
yielding nothing when absent), run 10 turns, then emit the report.
`os` supplies the per-turn oracles and `report` the `_generate_report`
service response. -/
def run_stream (pool : List Agent) (db : Db) (did : String)
    (os : Nat → TurnOracle) (report : String) : List Event × Db :=
  match db.discussions.find? (fun d => decide (d.id = did)) with
  | none => ([], db)
  | some disc =>
    let rows := db.roles.filter (fun r => decide (r.discussion_id = did))
    let candidates := rolesKeys rows
    let p := runTurns pool rows did disc.task candidates os 1 10
      (RunState.mk db "PM")
    (p.2 ++ [Event.status "Synthesizing Final Strategic Report...",
             Event.finished report], p.1.db)

/-- Whether a turn body raises before completing, as a function of the
candidate list and coordinator outcome (the only intrinsic raise points:
`candidates[0]` in the parse fallback, the two dict key accesses, and the
modulo/index on an empty candidate list). -/
def turnFails (candidates : List String) (p : PmOutcome) : Bool :=
  match p with
  | .parseFail => candidates.isEmpty
  | .parsed none _ => true
  | .parsed (some _) none => true
  | .parsed (some ns) (some _) =>
    !(decide (ns ∈ candidates)) && candidates.isEmpty

-- ==========================================================================
-- Shape and effect lemmas for the turn loop
-- ==========================================================================

theorem applyActs_nil (did : String) (s : RunState) :
    applyActs did s [] = s := rfl

theorem applyActs_cons (did : String) (s : RunState) (a : Act)
    (acts : List Act) :
    applyActs did s (a :: acts) = applyActs did (execState did s a) acts :=
  rfl

theorem applyActs_append (did : String) (s : RunState)
    (l1 l2 : List Act) :
    applyActs did s (l1 ++ l2) = applyActs did (applyActs did s l1) l2 :=
  List.foldl_append _ _ _ _

theorem applyActs_emits (did : String) (f : String → Event) :
    ∀ (ts : List String) (s : RunState),
      applyActs did s (ts.map (fun t => Act.emit (f t))) = s := by
  intro ts
  induction ts with
  | nil => intro s; rfl
  | cons t rest ih =>
    intro s
    rw [List.map_cons, applyActs_cons]
    exact ih s

theorem actEvents_nil : actEvents [] = [] := rfl

theorem actEvents_cons_emit (e : Event) (acts : List Act) :
    actEvents (Act.emit e :: acts) = e :: actEvents acts := rfl

theorem actEvents_cons_callSync (p : String) (acts : List Act) :
    actEvents (Act.callSync p :: acts) = actEvents acts := rfl

theorem actEvents_cons_callStream (p : String) (acts : List Act) :
    actEvents (Act.callStream p :: acts) = actEvents acts := rfl

theorem actEvents_cons_save (sender content : String) (acts : List Act) :
    actEvents (Act.save sender content :: acts) = actEvents acts := rfl

theorem actEvents_cons_setLast (r : String) (acts : List Act) :
    actEvents (Act.setLast r :: acts) = actEvents acts := rfl

theorem actEvents_append (l1 l2 : List Act) :
    actEvents (l1 ++ l2) = actEvents l1 ++ actEvents l2 :=
  List.filterMap_append _ _ _

/-- Every turn body is either cut short before the coordinator message
(a raising turn) or has the full header-plus-speaker shape. -/
theorem turnActions_cases (pool : List Agent) (rows : List RoleRow)
    (task : String) (candidates : List String) (msgs : List Msg)
    (lastSpeaker : String) (turn : Nat) (o : TurnOracle) :
    (turnActions pool rows task candidates msgs lastSpeaker turn o =
      [Act.emit (Event.status
          ("Phase: " ++ phase turn ++ " - PM Coordinating...")),
       Act.callSync (pmPromptTemplate task (phase turn) (historyText msgs)
         (jsonList (offeredCandidates candidates lastSpeaker)))]) ∨
    (∃ nextRole ins,
      turnActions pool rows task candidates msgs lastSpeaker turn o =
        Act.emit (Event.status
          ("Phase: " ++ phase turn ++ " - PM Coordinating...")) ::
        Act.callSync (pmPromptTemplate task (phase turn) (historyText msgs)
          (jsonList (offeredCandidates candidates lastSpeaker))) ::
        speakerActs pool rows task (historyText msgs) (phase turn)
          nextRole ins o.tokens) := by
  cases hpm : pmBrainResult candidates o.pm with
  | none => left; simp only [turnActions, hpm]
  | some v =>
    obtain ⟨nsOpt, insOpt⟩ := v
    cases nsOpt with
    | none => left; simp only [turnActions, hpm]
    | some ns =>
      cases insOpt with
      | none => left; simp only [turnActions, hpm]
      | some ins =>
        cases hnr : (if ns ∈ candidates then some ns
            else candidates.get? (turn % candidates.length)) with
        | none => left; simp only [turnActions, hpm, hnr]
        | some nextRole =>
          right
          exact ⟨nextRole, ins, by simp only [turnActions, hpm, hnr]⟩

/-- Events of the speaker part of a turn. -/
theorem actEvents_speakerActs (pool : List Agent) (rows : List RoleRow)
    (task history ph nextRole ins : String) (tokens : List String) :
    actEvents (speakerActs pool rows task history ph nextRole ins tokens) =
      Event.message "PM" (pmContentOf ph nextRole ins) "pm" ::
      Event.status (nextRole ++ " is thinking...") ::
      Event.streamStart nextRole ::
      (tokens.map Event.streamChunk ++ [Event.streamEnd]) := by
  unfold speakerActs
  rw [actEvents_cons_setLast, actEvents_cons_save, actEvents_cons_emit,
    actEvents_cons_emit, actEvents_cons_emit, actEvents_cons_callStream,
    actEvents_append]
  have hmap : actEvents
      (tokens.map (fun t => Act.emit (Event.streamChunk t))) =
      tokens.map Event.streamChunk := by
    induction tokens with
    | nil => rfl
    | cons t rest ih =>
      rw [List.map_cons, actEvents_cons_emit, ih, List.map_cons]
  rw [hmap]
  rfl

/-- State effect of the speaker part of a turn: two message rows are
appended and the last speaker becomes the chosen role. -/
theorem applyActs_speakerActs (pool : List Agent) (rows : List RoleRow)
    (did task history ph nextRole ins : String) (tokens : List String)
    (s : RunState) :
    applyActs did s (speakerActs pool rows task history ph nextRole ins
        tokens) =
      RunState.mk
        (saveMsg (saveMsg s.db did "PM" (pmContentOf ph nextRole ins))
          did nextRole (String.join tokens)) nextRole := by
  unfold speakerActs
  rw [applyActs_cons, applyActs_cons, applyActs_cons, applyActs_cons,
    applyActs_cons, applyActs_cons, applyActs_append, applyActs_emits,
    applyActs_cons, applyActs_cons, applyActs_nil]
  rfl

/-- Recogniser for `finished` events. -/
def isFinishedEv : Event → Bool
  | .finished _ => true
  | _ => false

theorem actEvents_cut_sublist (acts : List Act) (c : Option Nat) :
    (actEvents (cutActs acts c)).Sublist (actEvents acts) := by
  cases c with
  | none => exact List.Sublist.refl _
  | some k => exact List.Sublist.filterMap _ (List.take_sublist _ _)

theorem turnActions_no_finished (pool : List Agent) (rows : List RoleRow)
    (task : String) (candidates : List String) (msgs : List Msg)
    (ls : String) (turn : Nat) (o : TurnOracle) (r : String) :
    Event.finished r ∉
      actEvents (turnActions pool rows task candidates msgs ls turn o) := by
  rcases turnActions_cases pool rows task candidates msgs ls turn o with
    h | ⟨nr, ins, h⟩ <;> rw [h]
  · rw [actEvents_cons_emit, actEvents_cons_callSync, actEvents_nil]
    intro hc
    simp at hc
  · rw [actEvents_cons_emit, actEvents_cons_callSync, actEvents_speakerActs]
    intro hc
    simp at hc

theorem runTurn_no_finished (pool : List Agent) (rows : List RoleRow)
    (did task : String) (candidates : List String) (o : TurnOracle)
    (turn : Nat) (s : RunState) (r : String) :
    Event.finished r ∉
      (runTurn pool rows did task candidates o turn s).2 := by
  intro hmem
  have hsub := actEvents_cut_sublist
    (turnActions pool rows task candidates (msgsOf s.db did)
      s.lastSpeaker turn o) o.cut
  exact turnActions_no_finished pool rows task candidates (msgsOf s.db did)
    s.lastSpeaker turn o r (hsub.subset hmem)

theorem runTurns_no_finished (pool : List Agent) (rows : List RoleRow)
    (did task : String) (candidates : List String) (os : Nat → TurnOracle) :
    ∀ (n t : Nat) (s : RunState) (r : String),
      Event.finished r ∉
        (runTurns pool rows did task candidates os t n s).2 := by
  intro n
  induction n with
  | zero =>
    intro t s r hc
    simp [runTurns] at hc
  | succ m ih =>
    intro t s r hc
    simp only [runTurns] at hc
    rcases List.mem_append.mp hc with hmem | hmem
    · exact runTurn_no_finished pool rows did task candidates (os t) t s r hmem
    · exact ih (t + 1) _ r hmem

/-- The shape of `run_stream` when the discussion exists. -/
theorem run_stream_some (pool : List Agent) (db : Db) (did : String)
    (os : Nat → TurnOracle) (report : String) (disc : Discussion)
    (hfind : db.discussions.find? (fun d => decide (d.id = did)) =
      some disc) :
    run_stream pool db did os report =
      ((runTurns pool
          (db.roles.filter (fun r => decide (r.discussion_id = did)))
          did disc.task
          (rolesKeys
            (db.roles.filter (fun r => decide (r.discussion_id = did))))
          os 1 10 (RunState.mk db "PM")).2 ++
        [Event.status "Synthesizing Final Strategic Report...",
         Event.finished report],
       (runTurns pool
          (db.roles.filter (fun r => decide (r.discussion_id = did)))
          did disc.task
          (rolesKeys
            (db.roles.filter (fun r => decide (r.discussion_id = did))))
          os 1 10 (RunState.mk db "PM")).1.db) := by
  unfold run_stream
  rw [hfind]

/-- Filtering for `finished` events of a finished-free list is empty. -/
theorem no_finished_filter (evs : List Event)
    (h : ∀ r, Event.finished r ∉ evs) : evs.filter isFinishedEv = [] := by
  rw [List.filter_eq_nil]
  intro e he
  cases e with
  | finished r => exact absurd he (h r)
  | status d => simp [isFinishedEv]
  | message a b c => simp [isFinishedEv]
  | streamStart a => simp [isFinishedEv]
  | streamChunk a => simp [isFinishedEv]
  | streamEnd => simp [isFinishedEv]

-- ==========================================================================
-- C2: every run of an existing discussion terminates in one finished event
-- ==========================================================================

/-- Claim C2: For every persisted discussion id (any role rows, including none)
and every per-turn oracle behaviour (any coordinator outcome, any tokens,
any fault cut - no exception inside a turn escapes the loop), the event
sequence ends with exactly one `finished` event carrying the report text
as its final event. -/
theorem run_stream_terminal (pool : List Agent) (db : Db) (did : String)
    (os : Nat → TurnOracle) (report : String)
    (h : (db.discussions.find? (fun d => decide (d.id = did))).isSome) :
    ((run_stream pool db did os report).1).getLast? =
      some (Event.finished report) ∧
    ((run_stream pool db did os report).1).filter isFinishedEv =
      [Event.finished report] := by
  obtain ⟨disc, hfind⟩ := Option.isSome_iff_exists.mp h
  have heq := run_stream_some pool db did os report disc hfind
  have h1 : (run_stream pool db did os report).1 =
      (runTurns pool
        (db.roles.filter (fun r => decide (r.discussion_id = did)))
        did disc.task
        (rolesKeys
          (db.roles.filter (fun r => decide (r.discussion_id = did))))
        os 1 10 (RunState.mk db "PM")).2 ++
      [Event.status "Synthesizing Final Strategic Report...",
       Event.finished report] := by
    rw [heq]
  rw [h1]
  constructor
  · have hassoc : ∀ (l : List Event) (a b : Event),
        l ++ [a, b] = (l ++ [a]) ++ [b] := by
      intro l a b
      simp
    rw [hassoc]
    exact List.getLast?_concat _
  · rw [List.filter_append]
    rw [no_finished_filter _
      (fun r => runTurns_no_finished pool
        (db.roles.filter (fun r => decide (r.discussion_id = did)))
        did disc.task
        (rolesKeys
          (db.roles.filter (fun r => decide (r.discussion_id = did))))
        os 10 1 (RunState.mk db "PM") r)]
    rfl

/-- Concrete store with one discussion and no role rows. -/
def wDb2 : Db := Db.mk [Discussion.mk "d" "t" "g" "active" "now"] [] [] 1

/-- An oracle whose coordinator responses always fail to parse. -/
def wOracle : Nat → TurnOracle :=
  fun _ => TurnOracle.mk PmOutcome.parseFail [] none

/-- Witness for C2 on a discussion with zero role assignments. -/
theorem run_stream_terminal_witness :
    ((run_stream [] wDb2 "d" wOracle "REPORT").1).getLast? =
      some (Event.finished "REPORT") :=
  (run_stream_terminal [] wDb2 "d" wOracle "REPORT" (by decide)).1

-- ==========================================================================
-- C7: unknown discussion ids silently yield nothing
-- ==========================================================================

/-- Claim C7: For every discussion id without a persisted Discussion record,
`run_stream` yields no events, signals no error, and leaves the store
untouched. -/
theorem run_stream_unknown_id (pool : List Agent) (db : Db) (did : String)
    (os : Nat → TurnOracle) (report : String)
    (h : db.discussions.find? (fun d => decide (d.id = did)) = none) :
    run_stream pool db did os report = ([], db) := by
  unfold run_stream
  rw [h]

/-- Witness for C7 on an empty store. -/
theorem run_stream_unknown_id_witness :
    run_stream [] (Db.mk [] [] [] 1) "missing" wOracle "r" =
      ([], Db.mk [] [] [] 1) :=
  run_stream_unknown_id [] (Db.mk [] [] [] 1) "missing" wOracle "r" rfl

-- ==========================================================================
-- C9: the run only ever appends message rows
-- ==========================================================================

theorem execState_extends (did : String) (s : RunState) (a : Act) :
    (execState did s a).db.discussions = s.db.discussions ∧
    (execState did s a).db.roles = s.db.roles ∧
    ∃ new, (execState did s a).db.messages = s.db.messages ++ new := by
  cases a with
  | emit e => exact ⟨rfl, rfl, [], (List.append_nil _).symm⟩
  | callSync p => exact ⟨rfl, rfl, [], (List.append_nil _).symm⟩
  | callStream p => exact ⟨rfl, rfl, [], (List.append_nil _).symm⟩
  | setLast r => exact ⟨rfl, rfl, [], (List.append_nil _).symm⟩
  | save sender content =>
    exact ⟨rfl, rfl, [Msg.mk s.db.nextMsgId did sender content], rfl⟩

theorem applyActs_extends (did : String) :
    ∀ (acts : List Act) (s : RunState),
      (applyActs did s acts).db.discussions = s.db.discussions ∧
      (applyActs did s acts).db.roles = s.db.roles ∧
      ∃ new, (applyActs did s acts).db.messages = s.db.messages ++ new := by
  intro acts
  induction acts with
  | nil => intro s; exact ⟨rfl, rfl, [], (List.append_nil _).symm⟩
  | cons a rest ih =>
    intro s
    rw [applyActs_cons]
    obtain ⟨h1, h2, new1, h3⟩ := execState_extends did s a
    obtain ⟨h4, h5, new2, h6⟩ := ih (execState did s a)
    refine ⟨h4.trans h1, h5.trans h2, new1 ++ new2, ?_⟩
    rw [h6, h3, List.append_assoc]

theorem runTurn_extends (pool : List Agent) (rows : List RoleRow)
    (did task : String) (candidates : List String) (o : TurnOracle)
    (turn : Nat) (s : RunState) :
    ((runTurn pool rows did task candidates o turn s).1).db.discussions =
      s.db.discussions ∧
    ((runTurn pool rows did task candidates o turn s).1).db.roles =
      s.db.roles ∧
    ∃ new, ((runTurn pool rows did task candidates o turn s).1).db.messages =
      s.db.messages ++ new :=
  applyActs_extends did _ s

theorem runTurns_extends (pool : List Agent) (rows : List RoleRow)
    (did task : String) (candidates : List String) (os : Nat → TurnOracle) :
    ∀ (n t : Nat) (s : RunState),
      ((runTurns pool rows did task candidates os t n s).1).db.discussions =
        s.db.discussions ∧
      ((runTurns pool rows did task candidates os t n s).1).db.roles =
        s.db.roles ∧
      ∃ new,
        ((runTurns pool rows did task candidates os t n s).1).db.messages =
          s.db.messages ++ new := by
  intro n
  induction n with
  | zero => intro t s; exact ⟨rfl, rfl, [], (List.append_nil _).symm⟩
  | succ m ih =>
    intro t s
    obtain ⟨h1, h2, new1, h3⟩ :=
      runTurn_extends pool rows did task candidates (os t) t s
    obtain ⟨h4, h5, new2, h6⟩ :=
      ih (t + 1) (runTurn pool rows did task candidates (os t) t s).1
    simp only [runTurns]
    refine ⟨h4.trans h1, h5.trans h2, new1 ++ new2, ?_⟩
    rw [h6, h3, List.append_assoc]

/-- Claim C9: the function run_stream never modifies or deletes a persisted row: the
Discussion rows (so also the task, goal, creation
time and `active` status of the started discussion) and all role rows are untouched, and the only
store mutation of a complete run is appending new message rows. -/
theorem run_stream_frame (pool : List Agent) (db : Db) (did : String)
    (os : Nat → TurnOracle) (report : String) :
    (run_stream pool db did os report).2.discussions = db.discussions ∧
    (run_stream pool db did os report).2.roles = db.roles ∧
    ∃ new, (run_stream pool db did os report).2.messages =
      db.messages ++ new := by
  cases hfind : db.discussions.find? (fun d => decide (d.id = did)) with
  | none =>
    rw [run_stream_unknown_id pool db did os report hfind]
    exact ⟨rfl, rfl, [], (List.append_nil _).symm⟩
  | some disc =>
    rw [run_stream_some pool db did os report disc hfind]
    exact runTurns_extends pool
      (db.roles.filter (fun r => decide (r.discussion_id = did)))
      did disc.task
      (rolesKeys (db.roles.filter (fun r => decide (r.discussion_id = did))))
      os 10 1 (RunState.mk db "PM")

-- ==========================================================================
-- C4: cyclic override on an unknown next_speaker
-- ==========================================================================

theorem runTurn_eq (pool : List Agent) (rows : List RoleRow)
    (did task : String) (candidates : List String) (o : TurnOracle)
    (turn : Nat) (s : RunState) :
    runTurn pool rows did task candidates o turn s =
      (applyActs did s (cutActs (turnActions pool rows task candidates
        (msgsOf s.db did) s.lastSpeaker turn o) o.cut),
       actEvents (cutActs (turnActions pool rows task candidates
        (msgsOf s.db did) s.lastSpeaker turn o) o.cut)) := rfl

/-- The turn actions when the coordinator outcome yields a speaker that is
among the candidates. -/
theorem turnActions_chosen (pool : List Agent) (rows : List RoleRow)
    (task : String) (candidates : List String) (msgs : List Msg)
    (ls : String) (turn : Nat) (o : TurnOracle) (ns ins : String)
    (hpmr : pmBrainResult candidates o.pm = some (some ns, some ins))
    (hns : ns ∈ candidates) :
    turnActions pool rows task candidates msgs ls turn o =
      Act.emit (Event.status
        ("Phase: " ++ phase turn ++ " - PM Coordinating...")) ::
      Act.callSync (pmPromptTemplate task (phase turn) (historyText msgs)
        (jsonList (offeredCandidates candidates ls))) ::
      speakerActs pool rows task (historyText msgs) (phase turn)
        ns ins o.tokens := by
  simp only [turnActions, hpmr, if_pos hns]

/-- The turn actions when the coordinator outcome yields a speaker outside
the candidates and the cyclic override applies. -/
theorem turnActions_override (pool : List Agent) (rows : List RoleRow)
    (task : String) (candidates : List String) (msgs : List Msg)
    (ls : String) (turn : Nat) (o : TurnOracle) (ns ins nr : String)
    (hpmr : pmBrainResult candidates o.pm = some (some ns, some ins))
    (hns : ns ∉ candidates)
    (hget : candidates.get? (turn % candidates.length) = some nr) :
    turnActions pool rows task candidates msgs ls turn o =
      Act.emit (Event.status
        ("Phase: " ++ phase turn ++ " - PM Coordinating...")) ::
      Act.callSync (pmPromptTemplate task (phase turn) (historyText msgs)
        (jsonList (offeredCandidates candidates ls))) ::
      speakerActs pool rows task (historyText msgs) (phase turn)
        nr ins o.tokens := by
  simp only [turnActions, hpmr, if_neg hns, hget]

/-- Claim C4: For every turn in which the coordinator decision parses to a
`next_speaker` absent from the assigned role names, the speaker is
replaced deterministically by `candidates[turn mod len(candidates)]` over
the full assigned-role list, and the completed turn persists exactly one
coordinator message followed by exactly one speaker message. -/
theorem runTurn_override (pool : List Agent) (rows : List RoleRow)
    (did task : String) (candidates : List String) (o : TurnOracle)
    (turn : Nat) (s : RunState) (ns ins : String)
    (hpm : o.pm = PmOutcome.parsed (some ns) (some ins))
    (hns : ns ∉ candidates)
    (hne : candidates ≠ [])
    (hcut : o.cut = none) :
    ∃ nr, candidates.get? (turn % candidates.length) = some nr ∧
      (runTurn pool rows did task candidates o turn s).2 =
        Event.status ("Phase: " ++ phase turn ++ " - PM Coordinating...") ::
        Event.message "PM" (pmContentOf (phase turn) nr ins) "pm" ::
        Event.status (nr ++ " is thinking...") ::
        Event.streamStart nr ::
        (o.tokens.map Event.streamChunk ++ [Event.streamEnd]) ∧
      ((runTurn pool rows did task candidates o turn s).1).db.messages =
        s.db.messages ++
          [Msg.mk s.db.nextMsgId did "PM" (pmContentOf (phase turn) nr ins),
           Msg.mk (s.db.nextMsgId + 1) did nr (String.join o.tokens)] ∧
      ((runTurn pool rows did task candidates o turn s).1).lastSpeaker =
        nr := by
  have hne' : 0 < candidates.length := by
    cases candidates with
    | nil => exact absurd rfl hne
    | cons c cs => simp
  have hlt : turn % candidates.length < candidates.length :=
    Nat.mod_lt _ hne'
  have hget : candidates.get? (turn % candidates.length) =
      some (candidates.get ⟨turn % candidates.length, hlt⟩) :=
    List.get?_eq_get hlt
  set nr := candidates.get ⟨turn % candidates.length, hlt⟩
  have hpmr : pmBrainResult candidates o.pm = some (some ns, some ins) := by
    rw [hpm]
    rfl
  have hacts := turnActions_override pool rows task candidates
    (msgsOf s.db did) s.lastSpeaker turn o ns ins nr hpmr hns hget
  have hrt : runTurn pool rows did task candidates o turn s =
      (applyActs did s
        (Act.emit (Event.status
          ("Phase: " ++ phase turn ++ " - PM Coordinating...")) ::
         Act.callSync (pmPromptTemplate task (phase turn)
           (historyText (msgsOf s.db did))
           (jsonList (offeredCandidates candidates s.lastSpeaker))) ::
         speakerActs pool rows task (historyText (msgsOf s.db did))
           (phase turn) nr ins o.tokens),
       actEvents
        (Act.emit (Event.status
          ("Phase: " ++ phase turn ++ " - PM Coordinating...")) ::
         Act.callSync (pmPromptTemplate task (phase turn)
           (historyText (msgsOf s.db did))
           (jsonList (offeredCandidates candidates s.lastSpeaker))) ::
         speakerActs pool rows task (historyText (msgsOf s.db did))
           (phase turn) nr ins o.tokens)) := by
    rw [runTurn_eq, hcut]
    simp only [cutActs]
    rw [hacts]
  refine ⟨nr, hget, ?_, ?_, ?_⟩
  · rw [hrt]
    rw [actEvents_cons_emit, actEvents_cons_callSync, actEvents_speakerActs]
  · rw [hrt]
    show (applyActs did s (speakerActs pool rows task
      (historyText (msgsOf s.db did)) (phase turn) nr ins o.tokens)).db.messages = _
    rw [applyActs_speakerActs]
    simp [saveMsg]
  · rw [hrt]
    show (applyActs did s (speakerActs pool rows task
      (historyText (msgsOf s.db did)) (phase turn) nr ins
        o.tokens)).lastSpeaker = nr
    rw [applyActs_speakerActs]

/-- Witness for C4 at a concrete turn: `next_speaker = "C"` is not an
assigned role, turn 3 with 2 candidates selects `candidates[1]`. -/
theorem runTurn_override_witness :
    ∃ nr, (["A", "B"].get? (3 % (["A", "B"] : List String).length) =
        some nr) ∧
      (runTurn [] [] "d" "t" ["A", "B"]
        (TurnOracle.mk (PmOutcome.parsed (some "C") (some "i")) ["x"] none)
        3 (RunState.mk (Db.mk [] [] [] 1) "PM")).2 =
        Event.status ("Phase: " ++ phase 3 ++ " - PM Coordinating...") ::
        Event.message "PM" (pmContentOf (phase 3) nr "i") "pm" ::
        Event.status (nr ++ " is thinking...") ::
        Event.streamStart nr ::
        (["x"].map Event.streamChunk ++ [Event.streamEnd]) ∧
      ((runTurn [] [] "d" "t" ["A", "B"]
        (TurnOracle.mk (PmOutcome.parsed (some "C") (some "i")) ["x"] none)
        3 (RunState.mk (Db.mk [] [] [] 1) "PM")).1).db.messages =
        [] ++ [Msg.mk 1 "d" "PM" (pmContentOf (phase 3) nr "i"),
               Msg.mk 2 "d" nr (String.join ["x"])] ∧
      ((runTurn [] [] "d" "t" ["A", "B"]
        (TurnOracle.mk (PmOutcome.parsed (some "C") (some "i")) ["x"] none)
        3 (RunState.mk (Db.mk [] [] [] 1) "PM")).1).lastSpeaker = nr :=
  runTurn_override [] [] "d" "t" ["A", "B"]
    (TurnOracle.mk (PmOutcome.parsed (some "C") (some "i")) ["x"] none)
    3 (RunState.mk (Db.mk [] [] [] 1) "PM") "C" "i" rfl (by decide)
    (by decide) rfl

-- ==========================================================================
-- C5: a fault-free run has 10 well-shaped turns and one finished event
-- ==========================================================================

/-- The event shape of one completed turn: coordinator message after its
status line, then the speaker announcement, the stream chunks, and the
stream end. -/
def TurnBlockShape (b : List Event) : Prop :=
  ∃ (s1 pmc s2 nr : String) (toks : List String), b =
    Event.status s1 :: Event.message "PM" pmc "pm" :: Event.status s2 ::
    Event.streamStart nr :: (toks.map Event.streamChunk ++ [Event.streamEnd])

theorem runTurn_block (pool : List Agent) (rows : List RoleRow)
    (did task : String) (candidates : List String) (o : TurnOracle)
    (turn : Nat) (s : RunState)
    (hcut : o.cut = none)
    (hok : turnFails candidates o.pm = false) :
    TurnBlockShape (runTurn pool rows did task candidates o turn s).2 := by
  have hev : ∀ ns ins : String,
      pmBrainResult candidates o.pm = some (some ns, some ins) →
      ns ∈ candidates →
      TurnBlockShape (runTurn pool rows did task candidates o turn s).2 := by
    intro ns ins hpmr hin
    have hacts := turnActions_chosen pool rows task candidates
      (msgsOf s.db did) s.lastSpeaker turn o ns ins hpmr hin
    rw [runTurn_eq, hcut]
    simp only [cutActs]
    rw [hacts, actEvents_cons_emit, actEvents_cons_callSync,
      actEvents_speakerActs]
    exact ⟨_, _, _, ns, o.tokens, rfl⟩
  cases hpm : o.pm with
  | parseFail =>
    rw [hpm] at hok
    unfold turnFails at hok
    cases hc : candidates with
    | nil => rw [hc] at hok; simp at hok
    | cons c cs =>
      subst hc
      have hpmr : pmBrainResult (c :: cs) o.pm =
          some (some c, some "意見をお願いします。") := by
        rw [hpm]
        rfl
      exact hev c _ hpmr (List.mem_cons_self c cs)
  | parsed nsOpt insOpt =>
    cases nsOpt with
    | none => rw [hpm] at hok; simp [turnFails] at hok
    | some ns =>
      cases insOpt with
      | none => rw [hpm] at hok; simp [turnFails] at hok
      | some ins =>
        have hpmr : pmBrainResult candidates o.pm =
            some (some ns, some ins) := by
          rw [hpm]
          rfl
        by_cases hin : ns ∈ candidates
        · exact hev ns ins hpmr hin
        · rw [hpm] at hok
          unfold turnFails at hok
          rw [Bool.and_eq_false_iff] at hok
          have hne : ¬ candidates.isEmpty = true := by
            rcases hok with h | h
            · rw [Bool.not_eq_false'] at h
              rw [decide_eq_true_eq] at h
              exact absurd h hin
            · simp [h]
          have hne' : 0 < candidates.length := by
            cases candidates with
            | nil => simp [List.isEmpty] at hne
            | cons c cs => simp
          have hlt : turn % candidates.length < candidates.length :=
            Nat.mod_lt _ hne'
          have hget : candidates.get? (turn % candidates.length) =
              some (candidates.get ⟨turn % candidates.length, hlt⟩) :=
            List.get?_eq_get hlt
          have hacts := turnActions_override pool rows task candidates
            (msgsOf s.db did) s.lastSpeaker turn o ns ins _ hpmr hin hget
          rw [runTurn_eq, hcut]
          simp only [cutActs]
          rw [hacts, actEvents_cons_emit, actEvents_cons_callSync,
            actEvents_speakerActs]
          exact ⟨_, _, _, _, o.tokens, rfl⟩

theorem runTurns_blocks (pool : List Agent) (rows : List RoleRow)
    (did task : String) (candidates : List String) (os : Nat → TurnOracle) :
    ∀ (n t : Nat) (s : RunState),
      (∀ i, t ≤ i → i < t + n →
        (os i).cut = none ∧ turnFails candidates (os i).pm = false) →
      ∃ blocks : List (List Event),
        (runTurns pool rows did task candidates os t n s).2 = blocks.join ∧
        blocks.length = n ∧
        ∀ b ∈ blocks, TurnBlockShape b := by
  intro n
  induction n with
  | zero =>
    intro t s h
    exact ⟨[], by simp [runTurns], rfl, by simp⟩
  | succ m ih =>
    intro t s h
    have hb := runTurn_block pool rows did task candidates (os t) t s
      (h t le_rfl (by omega)).1 (h t le_rfl (by omega)).2
    obtain ⟨blocks, h1, h2, h3⟩ :=
      ih (t + 1) (runTurn pool rows did task candidates (os t) t s).1
        (fun i hi1 hi2 => h i (by omega) (by omega))
    refine ⟨(runTurn pool rows did task candidates (os t) t s).2 :: blocks,
      ?_, by simp [h2], ?_⟩
    · simp only [runTurns]
      show _ ++ _ = _
      rw [h1]
      rfl
    · intro b hb'
      rcases List.mem_cons.mp hb' with hx | hx
      · rw [hx]; exact hb
      · exact h3 b hx

/-- Recogniser for coordinator `message` events. -/
def isMessageEv : Event → Bool
  | .message _ _ _ => true
  | _ => false

/-- Recogniser for `stream_start` events. -/
def isStreamStartEv : Event → Bool
  | .streamStart _ => true
  | _ => false

/-- Recogniser for `stream_end` events. -/
def isStreamEndEv : Event → Bool
  | .streamEnd => true
  | _ => false

theorem filter_chunks_eq_nil (p : Event → Bool)
    (hp : ∀ t, p (Event.streamChunk t) = false) :
    ∀ toks : List String, (toks.map Event.streamChunk).filter p = [] := by
  intro toks
  induction toks with
  | nil => rfl
  | cons t rest ih => simp [List.filter_cons, hp, ih]

theorem block_counts (b : List Event) (h : TurnBlockShape b) :
    (b.filter isMessageEv).length = 1 ∧
    (b.filter isStreamStartEv).length = 1 ∧
    (b.filter isStreamEndEv).length = 1 ∧
    (b.filter isFinishedEv).length = 0 := by
  obtain ⟨s1, pmc, s2, nr, toks, rfl⟩ := h
  have hm := filter_chunks_eq_nil isMessageEv (fun t => rfl) toks
  have hs := filter_chunks_eq_nil isStreamStartEv (fun t => rfl) toks
  have he := filter_chunks_eq_nil isStreamEndEv (fun t => rfl) toks
  have hf := filter_chunks_eq_nil isFinishedEv (fun t => rfl) toks
  refine ⟨?_, ?_, ?_, ?_⟩ <;>
    simp [List.filter_cons, List.filter_append, isMessageEv,
      isStreamStartEv, isStreamEndEv, isFinishedEv, hm, hs, he, hf]

theorem filter_join_length (p : Event → Bool) :
    ∀ blocks : List (List Event),
      ((blocks.join).filter p).length =
        (blocks.map (fun b => (b.filter p).length)).sum := by
  intro blocks
  induction blocks with
  | nil => rfl
  | cons b rest ih =>
    show ((b ++ rest.join).filter p).length = _
    rw [List.filter_append, List.length_append, ih]
    rfl

theorem sum_map_all_zero {α : Type} (f : α → Nat) :
    ∀ l : List α, (∀ x ∈ l, f x = 0) → (l.map f).sum = 0 := by
  intro l
  induction l with
  | nil => intro _; simp
  | cons a rest ih =>
    intro h
    have h1 := h a (List.mem_cons_self _ _)
    have h2 := ih (fun x hx => h x (List.mem_cons_of_mem _ hx))
    simp only [List.map_cons, List.sum_cons, h1, h2]

/-- Claim C5: In every run on an existing discussion in which no turn raises
(no fault cut and no intrinsic raise), the event sequence consists of 10
well-shaped turn blocks - each a coordinator `message` preceding
`stream_start`, preceding the `stream_chunk` events of that turn, preceding
`stream_end` - followed by the terminal status and exactly one
`finished` event; in particular there are exactly 10 `message` events, 10
`stream_start`/`stream_end` pairs, and exactly one `finished` event. -/
theorem run_stream_clean_run (pool : List Agent) (db : Db) (did : String)
    (os : Nat → TurnOracle) (report : String) (disc : Discussion)
    (hfind : db.discussions.find? (fun d => decide (d.id = did)) =
      some disc)
    (hok : ∀ i, 1 ≤ i → i ≤ 10 →
      (os i).cut = none ∧
      turnFails (rolesKeys (db.roles.filter
        (fun r => decide (r.discussion_id = did)))) (os i).pm = false) :
    ∃ blocks : List (List Event),
      (run_stream pool db did os report).1 =
        blocks.join ++
          [Event.status "Synthesizing Final Strategic Report...",
           Event.finished report] ∧
      blocks.length = 10 ∧
      (∀ b ∈ blocks, TurnBlockShape b) ∧
      (((run_stream pool db did os report).1).filter
        isMessageEv).length = 10 ∧
      (((run_stream pool db did os report).1).filter
        isStreamStartEv).length = 10 ∧
      (((run_stream pool db did os report).1).filter
        isStreamEndEv).length = 10 ∧
      (((run_stream pool db did os report).1).filter
        isFinishedEv).length = 1 := by
  obtain ⟨blocks, hj, hlen, hshape⟩ := runTurns_blocks pool
    (db.roles.filter (fun r => decide (r.discussion_id = did)))
    did disc.task
    (rolesKeys (db.roles.filter (fun r => decide (r.discussion_id = did))))
    os 10 1 (RunState.mk db "PM")
    (fun i h1 h2 => hok i h1 (by omega))
  have h1 : (run_stream pool db did os report).1 =
      blocks.join ++
        [Event.status "Synthesizing Final Strategic Report...",
         Event.finished report] := by
    rw [run_stream_some pool db did os report disc hfind]
    rw [hj]
  have hmsg : ∀ b ∈ blocks, (b.filter isMessageEv).length = 1 :=
    fun b hb => (block_counts b (hshape b hb)).1
  have hstart : ∀ b ∈ blocks, (b.filter isStreamStartEv).length = 1 :=
    fun b hb => (block_counts b (hshape b hb)).2.1
  have hend : ∀ b ∈ blocks, (b.filter isStreamEndEv).length = 1 :=
    fun b hb => (block_counts b (hshape b hb)).2.2.1
  have hfin : ∀ b ∈ blocks, (b.filter isFinishedEv).length = 0 :=
    fun b hb => (block_counts b (hshape b hb)).2.2.2
  refine ⟨blocks, h1, hlen, hshape, ?_, ?_, ?_, ?_⟩
  · rw [h1, List.filter_append, List.length_append, filter_join_length,
      sum_map_all_one _ blocks hmsg, hlen]
    rfl
  · rw [h1, List.filter_append, List.length_append, filter_join_length,
      sum_map_all_one _ blocks hstart, hlen]
    rfl
  · rw [h1, List.filter_append, List.length_append, filter_join_length,
      sum_map_all_one _ blocks hend, hlen]
    rfl
  · rw [h1, List.filter_append, List.length_append, filter_join_length,
      sum_map_all_zero _ blocks hfin]
    rfl

/-- Concrete store with one discussion and two assigned roles. -/
def wDb3 : Db :=
  Db.mk [Discussion.mk "d" "t" "g" "active" "now"] []
    [RoleRow.mk "d" "A" "da" "a1", RoleRow.mk "d" "B" "db" "a2"] 1

/-- An oracle that always parses to speaker A with one token streamed. -/
def wOracle3 : Nat → TurnOracle :=
  fun _ => TurnOracle.mk (PmOutcome.parsed (some "A") (some "i")) ["x"] none

/-- Witness for C5: the clean concrete run emits exactly 10 coordinator
message events. -/
theorem run_stream_clean_run_witness :
    (((run_stream [] wDb3 "d" wOracle3 "R").1).filter
      isMessageEv).length = 10 := by
  obtain ⟨blocks, h1, h2, h3, h4, h5, h6, h7⟩ :=
    run_stream_clean_run [] wDb3 "d" wOracle3 "R"
      (Discussion.mk "d" "t" "g" "active" "now") rfl
      (fun i hi1 hi2 => ⟨rfl, rfl⟩)
  exact h4

-- ==========================================================================
-- C3: anti-repetition is prompt-level only; the chosen speaker can repeat
-- ==========================================================================

/-- The senders of the `stream_start` events of a run, in order: the
speaker chosen for each completed turn after decision and override. -/
def streamStarters (evs : List Event) : List String :=
  evs.filterMap
    (fun e => match e with | Event.streamStart s => some s | _ => none)

/-- Counterexample to C3: the discussion has 2 candidate roles, yet when
the parsed coordinator decision names the previous speaker (a response
the service is free to produce - it is in `roles_map`, so no override
applies), the same expert speaks in consecutive turns: all ten turns are
spoken by A. -/
theorem coordinator_repeat_cex :
    (rolesKeys (wDb3.roles.filter
      (fun r => decide (r.discussion_id = "d")))).length = 2 ∧
    streamStarters ((run_stream [] wDb3 "d" wOracle3 "R").1) =
      ["A", "A", "A", "A", "A", "A", "A", "A", "A", "A"] :=
  ⟨rfl, rfl⟩

/-- Claim C3 amended: the exclusion of the immediately preceding speaker happens
only in the candidate list offered to the coordinator prompt
(`offeredCandidates`, src/server.py:256): membership there is exactly
membership among the candidates minus the last speaker.  The chosen
speaker after the decision and override carries no such guarantee. -/
theorem offered_excludes_last (candidates : List String)
    (lastSpeaker c : String) :
    c ∈ offeredCandidates candidates lastSpeaker ↔
      (c ∈ candidates ∧ c ≠ lastSpeaker) := by
  unfold offeredCandidates
  rw [List.mem_filter]
  simp

-- ==========================================================================
-- C8: the bounded history window
-- ==========================================================================

theorem lastN_map {α β : Type} (f : α → β) (n : Nat) (l : List α) :
    lastN n (l.map f) = (lastN n l).map f := by
  unfold lastN
  rw [List.length_map, List.map_drop]

theorem lastN_lastN {α : Type} (n : Nat) (l : List α) :
    lastN n (lastN n l) = lastN n l := by
  unfold lastN
  rw [List.length_drop]
  have h0 : l.length - (l.length - n) - n = 0 := by omega
  rw [h0, List.drop_zero]

theorem string_take_take (s : String) (n : Nat) :
    (s.take n).take n = s.take n := by
  apply String.ext
  rw [String.data_take, String.data_take, List.take_take, min_self]

/-- Claim C8: For every turn, the history text passed to the coordinator
decision and to the speaker prompt is `historyText` of the
discussion messages (in stored ascending-id order): the last 10 messages, each
rendered as its bracketed sender, the first 200 characters of its
content and an ellipsis suffix, joined by newlines.  Messages before the
last 10, and content beyond 200 characters, never influence it. -/
theorem history_window (pool : List Agent) (rows : List RoleRow)
    (task : String) (candidates : List String) (msgs : List Msg)
    (ls : String) (turn : Nat) (o : TurnOracle) :
    (∃ rest, turnActions pool rows task candidates msgs ls turn o =
      Act.emit (Event.status
        ("Phase: " ++ phase turn ++ " - PM Coordinating...")) ::
      Act.callSync (pmPromptTemplate task (phase turn) (historyText msgs)
        (jsonList (offeredCandidates candidates ls))) :: rest) ∧
    (∀ p, Act.callStream p ∈
        turnActions pool rows task candidates msgs ls turn o →
      ∃ nr ins, p = agentPromptTemplate nr (styleOf pool rows nr)
        (frameworksOf pool rows nr) ins (historyText msgs) task
        (phase turn)) ∧
    historyText msgs = historyText (lastN 10 msgs) ∧
    historyText (msgs.map (fun m =>
      Msg.mk m.id m.discussion_id m.sender (m.content.take 200))) =
      historyText msgs ∧
    historyText msgs = String.intercalate "\n"
      ((lastN 10 msgs).map (fun m =>
        "[" ++ m.sender ++ "]: " ++ m.content.take 200 ++ "...")) := by
  refine ⟨?_, ?_, ?_, ?_, ?_⟩
  · rcases turnActions_cases pool rows task candidates msgs ls turn o with
      h | ⟨nr, ins, h⟩
    · exact ⟨[], h⟩
    · exact ⟨_, h⟩
  · intro p hp
    rcases turnActions_cases pool rows task candidates msgs ls turn o with
      h | ⟨nr, ins, h⟩
    · rw [h] at hp
      simp at hp
    · rw [h] at hp
      simp [speakerActs] at hp
      exact ⟨nr, ins, hp⟩
  · unfold historyText
    rw [lastN_lastN]
  · unfold historyText
    congr 1
    rw [lastN_map, List.map_map]
    apply List.map_congr_left
    intro m _
    show renderMsg (Msg.mk m.id m.discussion_id m.sender
      (m.content.take 200)) = renderMsg m
    unfold renderMsg
    rw [string_take_take]
  · rfl

/-- Witness for C8 at a concrete message list. -/
theorem history_window_witness :
    historyText [Msg.mk 1 "d" "A" "hello"] =
      historyText (lastN 10 [Msg.mk 1 "d" "A" "hello"]) :=
  (history_window [] [] "t" [] [Msg.mk 1 "d" "A" "hello"] "PM" 1
    (TurnOracle.mk PmOutcome.parseFail [] none)).2.2.1
